import Mathlib

set_option maxHeartbeats 1000000
set_option maxRecDepth 100000

/-
Verification development for the transfer2go agent (Go sources).

The Go sources are shallowly embedded: the Trivial File Catalog (TFC)
operations from the `core` package, the agent-mesh registration routine from
the `server` package, and the `utils.Hash` function.  Database statements the
Go code executes through `database/sql` are modelled as explicit state passing
over a `DBState`; the SQL statements themselves are loaded by the Go code from
template files that are not part of the given sources, so their semantics
(unique-constrained inserts, id lookup, the File→Block→Dataset join) are
modelled from the specification's description of the schema.
-/

/-- Entry in the Trivial File Catalog: Go struct `CatalogEntry`. -/
structure CatalogEntry where
  Lfn : String
  Pfn : String
  Dataset : String
  Block : String
  Bytes : Int
  Hash : String
deriving DecidableEq

/-- Catalog filter: Go struct `TransferRequest`.
Modelled from the spec: the struct's definition is outside the given sources;
the spec gives it fields Dataset, Block, File, any of which may be the empty
string meaning "unconstrained", and only those three fields are read by the
catalog code. -/
structure TransferRequest where
  File : String
  Block : String
  Dataset : String
deriving DecidableEq

/-- Go `placeholder` (core package): choose the SQL WHERE-clause placeholder
for the configured database dialect.  The Go global `DBTYPE` is made an
explicit first argument; `fmt.Sprintf(":%s", p)` is string concatenation. -/
def placeholder (dbtype pholder : String) : String :=
  if dbtype == "ora" || dbtype == "oci8" then ":" ++ pholder
  else if dbtype == "PostgreSQL" then "$" ++ pholder
  else "?"

/-- A row of the File table.
Modelled from the spec: the schema (File table with foreign keys BlockId,
DatasetId and columns Lfn, Pfn, Bytes, Hash) lives in SQL template files not
part of the given sources. -/
structure FileRow where
  lfn : String
  pfn : String
  blockid : Nat
  datasetid : Nat
  bytes : Int
  hash : String
deriving DecidableEq

/-- The visible state of the catalog database: the Dataset table, the Block
table and the File table, each as a list of rows in insertion order.  The
surrogate id of a name is its 1-based position in its table. -/
structure DBState where
  datasets : List String
  blocks : List String
  files : List FileRow
deriving DecidableEq

/-- Does the second character list start the first? -/
def leadsWith : List Char → List Char → Bool
  | [], _ => true
  | _ :: _, [] => false
  | a :: as, b :: bs => a == b && leadsWith as bs

/-- Does the first character list contain the second as a contiguous run? -/
def hasSub : List Char → List Char → Bool
  | [], sub => sub.isEmpty
  | c :: rest, sub => leadsWith sub (c :: rest) || hasSub rest sub

/-- Go `strings.Contains s sub`. -/
def strContains (s sub : String) : Bool :=
  hasSub s.toList sub.toList

/-- Semantics of the `id_datasets` / `id_blocks` statements: all rows whose
name matches are returned and the Go code's scan loop keeps the last one, so
the id is the last matching 1-based position, and the scanned variable keeps
its zero value when no row matches.
Modelled from the spec: the statements live in SQL template files not part of
the given sources; the spec says each hierarchy row has a surrogate identity
looked up by name. -/
def idOfName (names : List String) (n : String) : Nat :=
  (List.range names.length).foldl
    (fun acc i => if names.getD i "" == n then i + 1 else acc) 0

/-- Semantics of the `insert_datasets` / `insert_blocks` statements: the name
column carries a uniqueness constraint, so inserting an existing name fails
with a UNIQUE-constraint error and changes nothing, and inserting a fresh name
appends it.
Modelled from the spec: the statements and schema are in SQL template files
not part of the given sources; the spec prescribes the uniqueness constraint
plus conflict-tolerant insert pattern. -/
def insertName (names : List String) (n : String) : List String × Option String :=
  if names.contains n then (names, some "UNIQUE constraint failed")
  else (names ++ [n], none)

/-- The key on which the File table's uniqueness constraint fires: per the
spec's data-model invariant, `Lfn` is unique per `(Dataset, Block)`, i.e. per
`(blockid, datasetid)` pair of foreign keys. -/
def sameKey (f g : FileRow) : Bool :=
  f.lfn == g.lfn && f.blockid == g.blockid && f.datasetid == g.datasetid

/-- Semantics of the `insert_files` statement: inserting a row whose key
collides with an existing row fails with a UNIQUE-constraint error and changes
nothing; otherwise the row is appended.
Modelled from the spec: the statement and schema are in SQL template files not
part of the given sources. -/
def insertFile (files : List FileRow) (r : FileRow) : List FileRow × Option String :=
  if files.any (fun f => sameKey f r) then (files, some "UNIQUE constraint failed: files")
  else (files ++ [r], none)

/-- Injected statement failures, modelling that the database driver may fail
any of the five statements `Catalog.Add` executes (disk error, lost
connection, ...) with the given error message; `none` means the statement
executes with its normal semantics. -/
structure Faults where
  insDataset : Option String
  idDataset : Option String
  insBlock : Option String
  idBlock : Option String
  insFile : Option String
deriving DecidableEq

/-- No injected failures: every statement behaves normally. -/
def noFaults : Faults := ⟨none, none, none, none, none⟩

/-- Execute a name insert through `DB.Exec`: an injected driver failure leaves
the table unchanged and reports the injected message, otherwise the constraint
semantics of `insertName` apply. -/
def execName (names : List String) (n : String) (fault : Option String) :
    List String × Option String :=
  match fault with
  | some msg => (names, some msg)
  | none => insertName names n

/-- Execute the file insert through `DB.Exec`, analogous to `execName`. -/
def execFile (files : List FileRow) (r : FileRow) (fault : Option String) :
    List FileRow × Option String :=
  match fault with
  | some msg => (files, some msg)
  | none => insertFile files r

/-- Outcome of `Catalog.Add`: `fatal` is the Go `check` helper calling
`log.Fatalf`, which terminates the process.  Both constructors carry the
database state visible at that point — every statement in `Add` runs on the
shared `DB` handle in autocommit mode (not on the transaction it begins), so
each statement's effect is persisted the moment it executes. -/
inductive AddOutcome where
  | fatal (msg : String) (db : DBState)
  | ok (db : DBState)
deriving DecidableEq

/-- The Go pattern `if e != nil && !strings.Contains(e.Error(), "UNIQUE")`:
a statement error is fatal unless its message contains "UNIQUE". -/
def errIsFatal (e : Option String) : Bool :=
  match e with
  | none => false
  | some msg => !(strContains msg "UNIQUE")

/-- Go `Catalog.Add` (core package).  The unused receiver is omitted; the Go
globals `DB`/`DBSQL` become the explicit `db` state and the statement
semantics above.  Control flow is embedded statement by statement:
`DB.Begin` opens a transaction `tx`, but every statement below runs on the
`DB` handle itself, so the transaction contains no statements and the final
`tx.Commit()` commits nothing; `check` aborts the process on a fatal error,
leaving whatever the already-executed statements persisted. -/
def Catalog.Add (flt : Faults) (db : DBState) (entry : CatalogEntry) : AddOutcome :=
  -- tx, e := DB.Begin()  (no statement below uses tx)
  -- insert dataset into dataset tables; tolerate UNIQUE conflicts
  let p1 := execName db.datasets entry.Dataset flt.insDataset
  let db1 : DBState := ⟨p1.1, db.blocks, db.files⟩
  if errIsFatal p1.2 then .fatal "Unable to insert into datasets table" db1
  else match flt.idDataset with
  | some _ => .fatal "Unable to perform DB.Query over datasets table" db1
  | none =>
    let did := idOfName db1.datasets entry.Dataset
    -- insert block into block table; tolerate UNIQUE conflicts
    let p2 := execName db1.blocks entry.Block flt.insBlock
    let db2 : DBState := ⟨db1.datasets, p2.1, db1.files⟩
    if errIsFatal p2.2 then .fatal "Unable to insert into blocks table" db2
    else match flt.idBlock with
    | some _ => .fatal "Unable to DB.Query over blocks table" db2
    | none =>
      let bid := idOfName db2.blocks entry.Block
      -- insert entry into files table
      let p3 := execFile db2.files ⟨entry.Lfn, entry.Pfn, bid, did, entry.Bytes, entry.Hash⟩
        flt.insFile
      let db3 : DBState := ⟨db2.datasets, db2.blocks, p3.1⟩
      -- source slip: the guard re-tests `e` — still the block-insert error,
      -- nil or UNIQUE at this point — while `err` holds the file-insert
      -- error, so a failed file insert never aborts.
      if errIsFatal p2.2 && p3.2.isSome then .fatal "Unable to DB.Exec insert_files" db3
      else .ok db3  -- tx.Commit(); return nil

example :
    Catalog.Add noFaults ⟨[], [], []⟩ ⟨"f1", "p1", "d1", "b1", 7, "h1"⟩ =
      .ok ⟨["d1"], ["b1"], [⟨"f1", "p1", 1, 1, 7, "h1"⟩]⟩ := by
  decide

example :
    Catalog.Add noFaults ⟨["d1"], ["b1"], [⟨"f1", "p1", 1, 1, 7, "h1"⟩]⟩
      ⟨"f1", "p1", "d1", "b1", 7, "h1"⟩ =
      .ok ⟨["d1"], ["b1"], [⟨"f1", "p1", 1, 1, 7, "h1"⟩]⟩ := by
  decide

/-- The file row `Catalog.Add` builds for an entry against given name tables,
and whose key also defines reachability of the entry's names. -/
def keyRow (db : DBState) (e : CatalogEntry) : FileRow :=
  ⟨e.Lfn, e.Pfn, idOfName db.blocks e.Block, idOfName db.datasets e.Dataset,
    e.Bytes, e.Hash⟩

/-- Number of File-table rows reachable for `(e.Dataset, e.Block, e.Lfn)`:
rows whose lfn matches and whose foreign keys are the ids those names
currently resolve to. -/
def reachableCount (db : DBState) (e : CatalogEntry) : Nat :=
  db.files.countP (fun f => sameKey f (keyRow db e))

/-- The File table's uniqueness constraint as a state invariant: no two rows
share a key. -/
def distinctKeys (files : List FileRow) : Prop :=
  List.Pairwise (fun f g => sameKey f g = false) files

theorem sameKey_refl (f : FileRow) : sameKey f f = true := by
  simp [sameKey]

theorem sameKey_eq_true_iff (f g : FileRow) :
    sameKey f g = true ↔
      f.lfn = g.lfn ∧ f.blockid = g.blockid ∧ f.datasetid = g.datasetid := by
  simp [sameKey, and_assoc]

/-- A name insert can only fail with a tolerated UNIQUE-constraint error. -/
theorem errIsFatal_insertName (ns : List String) (n : String) :
    errIsFatal (insertName ns n).2 = false := by
  unfold insertName
  split
  · show errIsFatal (some "UNIQUE constraint failed") = false
    decide
  · rfl

theorem mem_insertName (ns : List String) (n : String) :
    n ∈ (insertName ns n).1 := by
  unfold insertName
  split
  · next h => simpa using h
  · simp

theorem insertName_of_mem (ns : List String) (n : String)
    (h : n ∈ ns) :
    insertName ns n = (ns, some "UNIQUE constraint failed") := by
  simp [insertName, h]

theorem insertFile_of_any (fs : List FileRow) (r : FileRow)
    (h : fs.any (fun f => sameKey f r) = true) :
    insertFile fs r = (fs, some "UNIQUE constraint failed: files") := by
  simp [insertFile, h]

theorem any_insertFile (fs : List FileRow) (r : FileRow) :
    ((insertFile fs r).1).any (fun f => sameKey f r) = true := by
  unfold insertFile
  split
  · next h => exact h
  · simp [sameKey_refl]

/-- Under the uniqueness constraint at most one row matches a given key. -/
theorem countP_sameKey_le_one (l : List FileRow) (r : FileRow)
    (h : List.Pairwise (fun f g => sameKey f g = false) l) :
    l.countP (fun f => sameKey f r) ≤ 1 := by
  induction l with
  | nil => simp
  | cons a l ih =>
    rcases List.pairwise_cons.mp h with ⟨ha, hl⟩
    rw [List.countP_cons]
    by_cases har : sameKey a r = true
    · have hz : l.countP (fun f => sameKey f r) = 0 := by
        apply List.countP_eq_zero.mpr
        intro x hx
        intro hxr
        have hax : sameKey a x = true := by
          rcases (sameKey_eq_true_iff a r).mp har with ⟨h1, h2, h3⟩
          rcases (sameKey_eq_true_iff x r).mp (by simpa using hxr) with ⟨h4, h5, h6⟩
          exact (sameKey_eq_true_iff a x).mpr ⟨h1.trans h4.symm, h2.trans h5.symm, h3.trans h6.symm⟩
        have hfalse := ha x hx
        rw [hax] at hfalse
        exact absurd hfalse (by decide)
      simp [hz, har]
    · rw [if_neg har, Nat.add_zero]
      exact ih hl

/-- Shape of a fault-free `Catalog.Add` run: it always reaches `tx.Commit`
and returns nil (UNIQUE conflicts are tolerated and, with no driver faults,
no other statement error can occur), leaving the three conditional inserts. -/
theorem Add_noFaults_eq (db : DBState) (e : CatalogEntry) :
    Catalog.Add noFaults db e =
      AddOutcome.ok
        ⟨(insertName db.datasets e.Dataset).1,
         (insertName db.blocks e.Block).1,
         (insertFile db.files
           ⟨e.Lfn, e.Pfn,
            idOfName (insertName db.blocks e.Block).1 e.Block,
            idOfName (insertName db.datasets e.Dataset).1 e.Dataset,
            e.Bytes, e.Hash⟩).1⟩ := by
  unfold Catalog.Add noFaults execName execFile
  simp [errIsFatal_insertName]

/-- The file insert leaves exactly one row with the inserted key, whether it
was a fresh insert or a tolerated UNIQUE conflict. -/
theorem countP_insertFile (fs : List FileRow) (r : FileRow)
    (h : distinctKeys fs) :
    ((insertFile fs r).1).countP (fun f => sameKey f r) = 1 := by
  unfold insertFile
  split
  · next hany =>
    show fs.countP (fun f => sameKey f r) = 1
    have hle := countP_sameKey_le_one fs r h
    have hpos : 0 < fs.countP (fun f => sameKey f r) := by
      rw [List.countP_pos_iff]
      obtain ⟨x, hx, hxr⟩ := List.any_eq_true.mp hany
      exact ⟨x, hx, hxr⟩
    omega
  · next hany =>
    rw [List.countP_append]
    have h0 : fs.countP (fun f => sameKey f r) = 0 := by
      rw [List.countP_eq_zero]
      intro x hx
      have := List.any_eq_false.mp (Bool.of_not_eq_true hany) x hx
      simpa using this
    simp [h0, sameKey_refl]

/-- C1: for every CatalogEntry `e`, calling `Catalog.Add e` twice in sequence
returns no error on either call and leaves exactly one file row reachable for
`(e.Dataset, e.Block, e.Lfn)`; the second call's uniqueness conflicts on the
dataset, block and file inserts are treated as no-ops.  The hypothesis is the
File table's uniqueness constraint holding of the starting state. -/
theorem catalog_add_twice_idempotent (db : DBState) (e : CatalogEntry)
    (h : distinctKeys db.files) :
    ∃ db1 db2,
      Catalog.Add noFaults db e = AddOutcome.ok db1 ∧
      Catalog.Add noFaults db1 e = AddOutcome.ok db2 ∧
      reachableCount db2 e = 1 := by
  have hsecond : Catalog.Add noFaults
      ⟨(insertName db.datasets e.Dataset).1,
       (insertName db.blocks e.Block).1,
       (insertFile db.files
         ⟨e.Lfn, e.Pfn,
          idOfName (insertName db.blocks e.Block).1 e.Block,
          idOfName (insertName db.datasets e.Dataset).1 e.Dataset,
          e.Bytes, e.Hash⟩).1⟩ e =
      AddOutcome.ok
        ⟨(insertName db.datasets e.Dataset).1,
         (insertName db.blocks e.Block).1,
         (insertFile db.files
           ⟨e.Lfn, e.Pfn,
            idOfName (insertName db.blocks e.Block).1 e.Block,
            idOfName (insertName db.datasets e.Dataset).1 e.Dataset,
            e.Bytes, e.Hash⟩).1⟩ := by
    rw [Add_noFaults_eq]
    have hd : insertName (insertName db.datasets e.Dataset).1 e.Dataset =
        ((insertName db.datasets e.Dataset).1, some "UNIQUE constraint failed") :=
      insertName_of_mem _ _ (mem_insertName _ _)
    have hb : insertName (insertName db.blocks e.Block).1 e.Block =
        ((insertName db.blocks e.Block).1, some "UNIQUE constraint failed") :=
      insertName_of_mem _ _ (mem_insertName _ _)
    simp only [hd, hb]
    have hf : insertFile
        (insertFile db.files
          ⟨e.Lfn, e.Pfn,
           idOfName (insertName db.blocks e.Block).1 e.Block,
           idOfName (insertName db.datasets e.Dataset).1 e.Dataset,
           e.Bytes, e.Hash⟩).1
        ⟨e.Lfn, e.Pfn,
         idOfName (insertName db.blocks e.Block).1 e.Block,
         idOfName (insertName db.datasets e.Dataset).1 e.Dataset,
         e.Bytes, e.Hash⟩ =
        ((insertFile db.files
          ⟨e.Lfn, e.Pfn,
           idOfName (insertName db.blocks e.Block).1 e.Block,
           idOfName (insertName db.datasets e.Dataset).1 e.Dataset,
           e.Bytes, e.Hash⟩).1, some "UNIQUE constraint failed: files") :=
      insertFile_of_any _ _ (any_insertFile _ _)
    simp only [hf]
  have hcount : reachableCount
      ⟨(insertName db.datasets e.Dataset).1,
       (insertName db.blocks e.Block).1,
       (insertFile db.files
         ⟨e.Lfn, e.Pfn,
          idOfName (insertName db.blocks e.Block).1 e.Block,
          idOfName (insertName db.datasets e.Dataset).1 e.Dataset,
          e.Bytes, e.Hash⟩).1⟩ e = 1 := by
    unfold reachableCount keyRow
    exact countP_insertFile db.files _ h
  exact ⟨_, _, Add_noFaults_eq db e, hsecond, hcount⟩

/-- Witness for C1 at a concrete entry and the empty catalog. -/
theorem catalog_add_twice_idempotent_witness :
    distinctKeys (DBState.mk [] [] []).files ∧
    ∃ db1 db2,
      Catalog.Add noFaults ⟨[], [], []⟩ ⟨"f1", "p1", "d1", "b1", 7, "h1"⟩ = AddOutcome.ok db1 ∧
      Catalog.Add noFaults db1 ⟨"f1", "p1", "d1", "b1", 7, "h1"⟩ = AddOutcome.ok db2 ∧
      reachableCount db2 ⟨"f1", "p1", "d1", "b1", 7, "h1"⟩ = 1 :=
  ⟨List.Pairwise.nil,
   catalog_add_twice_idempotent ⟨[], [], []⟩ ⟨"f1", "p1", "d1", "b1", 7, "h1"⟩ List.Pairwise.nil⟩

/-- A concrete catalog entry used by the counterexample runs. -/
def entry0 : CatalogEntry := ⟨"f1", "p1", "d1", "b1", 7, "h1"⟩

/-- The empty catalog. -/
def emptyDB : DBState := ⟨[], [], []⟩

/-- A driver failure hitting only the block-insert statement. -/
def blockInsFault : Faults := ⟨none, none, some "disk I/O error", none, none⟩

/-- A driver failure hitting only the file-insert statement. -/
def fileInsFault : Faults := ⟨none, none, none, none, some "disk I/O error"⟩

/-- C2: `Catalog.Add` is not atomic.  Every statement runs on the shared `DB`
handle in autocommit mode, not on the transaction begun at the start, so when
the block-insert statement fails with a non-UNIQUE error on the empty catalog
the process aborts with the dataset row already persisted: the catalog state
is not left unchanged. -/
theorem catalog_add_not_atomic :
    Catalog.Add blockInsFault emptyDB entry0 =
      AddOutcome.fatal "Unable to insert into blocks table" ⟨["d1"], [], []⟩ ∧
    (⟨["d1"], [], []⟩ : DBState) ≠ emptyDB := by
  decide

/-- C3: a failure of the file-row insert is never fatal, whatever its cause.
The source tests the stale block-insert error variable instead of the
file-insert error, so a non-UNIQUE file-insert failure (here a disk error) is
silently ignored: `Add` returns nil and the file row is missing. -/
theorem catalog_add_file_insert_error_ignored :
    Catalog.Add fileInsFault emptyDB entry0 = AddOutcome.ok ⟨["d1"], ["b1"], []⟩ ∧
    strContains "disk I/O error" "UNIQUE" = false := by
  decide

/-- Resolve a surrogate id back to its name, as the join does.
Modelled from the spec: the join statement and schema are in SQL template
files not part of the given sources; ids are 1-based positions, and 0 (the Go
zero value) resolves to nothing. -/
def nameOfId (names : List String) (i : Nat) : Option String :=
  if i = 0 then none else names[i - 1]?

/-- Semantics of the `files_blocks_datasets` statement with no WHERE clause:
the File→Block→Dataset join, one CatalogEntry per file row whose two foreign
keys resolve, scanned in the column order Dataset, Block, Lfn, Pfn, Bytes,
Hash.  Modelled from the spec: the statement lives in a SQL template file not
part of the given sources. -/
def joinRows (db : DBState) : List CatalogEntry :=
  db.files.filterMap (fun f =>
    match nameOfId db.datasets f.datasetid, nameOfId db.blocks f.blockid with
    | some d, some b => some ⟨f.lfn, f.pfn, d, b, f.bytes, f.hash⟩
    | _, _ => none)

/-- The zero or more equality predicates `Catalog.Records` appends to the
query's WHERE clause, one per non-empty field of the filter, in source order
(File, Block, Dataset), conjoined by AND. -/
def conds (req : TransferRequest) : List (CatalogEntry → Bool) :=
  (if req.File ≠ "" then [fun e => e.Lfn == req.File] else []) ++
  (if req.Block ≠ "" then [fun e => e.Block == req.Block] else []) ++
  (if req.Dataset ≠ "" then [fun e => e.Dataset == req.Dataset] else [])

/-- Go `Catalog.Records` (core package): run the join restricted by the
conjunction of the predicates.  The `qfail` argument models `DB.Query`
failing with an error: the Go code only logs it and returns the empty slice
`[]CatalogEntry{}`; the function's return type carries no error at all. -/
def Catalog.Records (qfail : Option String) (db : DBState) (req : TransferRequest) :
    List CatalogEntry :=
  match qfail with
  | some _ => []
  | none => (joinRows db).filter (fun e => (conds req).all (fun c => c e))

/-- C4: `Records` returns exactly the catalog entries whose fields equal every
non-empty field of the filter, conjoined by AND; with all three fields empty
it returns the full set of entries. -/
theorem records_filter_exact (db : DBState) (req : TransferRequest) :
    (∀ e, e ∈ Catalog.Records none db req ↔
      (e ∈ joinRows db ∧
        (req.File ≠ "" → e.Lfn = req.File) ∧
        (req.Block ≠ "" → e.Block = req.Block) ∧
        (req.Dataset ≠ "" → e.Dataset = req.Dataset))) ∧
    (req.File = "" → req.Block = "" → req.Dataset = "" →
      Catalog.Records none db req = joinRows db) := by
  constructor
  · intro e
    by_cases hF : req.File = "" <;> by_cases hB : req.Block = "" <;>
      by_cases hD : req.Dataset = "" <;>
        simp [Catalog.Records, conds, hF, hB, hD, List.mem_filter]
  · intro hF hB hD
    simp [Catalog.Records, conds, hF, hB, hD, List.filter_eq_self]

/-- Witness for C4: concrete catalog, block-only filter. -/
theorem records_filter_exact_witness :
    (∀ e, e ∈ Catalog.Records none
        ⟨["d1"], ["b1"], [⟨"f1", "p1", 1, 1, 7, "h1"⟩]⟩ ⟨"", "b1", ""⟩ ↔
      (e ∈ joinRows ⟨["d1"], ["b1"], [⟨"f1", "p1", 1, 1, 7, "h1"⟩]⟩ ∧
        ((⟨"", "b1", ""⟩ : TransferRequest).File ≠ "" → e.Lfn = "") ∧
        ((⟨"", "b1", ""⟩ : TransferRequest).Block ≠ "" → e.Block = "b1") ∧
        ((⟨"", "b1", ""⟩ : TransferRequest).Dataset ≠ "" → e.Dataset = ""))) ∧
    ((⟨"", "b1", ""⟩ : TransferRequest).File = "" →
      (⟨"", "b1", ""⟩ : TransferRequest).Block = "" →
      (⟨"", "b1", ""⟩ : TransferRequest).Dataset = "" →
      Catalog.Records none ⟨["d1"], ["b1"], [⟨"f1", "p1", 1, 1, 7, "h1"⟩]⟩
        ⟨"", "b1", ""⟩ = joinRows ⟨["d1"], ["b1"], [⟨"f1", "p1", 1, 1, 7, "h1"⟩]⟩) :=
  records_filter_exact ⟨["d1"], ["b1"], [⟨"f1", "p1", 1, 1, 7, "h1"⟩]⟩ ⟨"", "b1", ""⟩

/-- C5: `Records` propagates no error: a failing query yields the empty list,
exactly what a query matching nothing yields, so the two cases are
indistinguishable to the caller (the return type carries no error value). -/
theorem records_error_indistinguishable (db : DBState) (req : TransferRequest)
    (msg : String) :
    Catalog.Records (some msg) db req = [] ∧
    (Catalog.Records none db req = [] →
      Catalog.Records (some msg) db req = Catalog.Records none db req) := by
  refine ⟨rfl, ?_⟩
  intro h
  rw [h]
  rfl

/-- Witness for C5 at a concrete failing query. -/
theorem records_error_indistinguishable_witness :
    Catalog.Records (some "query failed") emptyDB ⟨"f1", "", ""⟩ = [] ∧
    (Catalog.Records none emptyDB ⟨"f1", "", ""⟩ = [] →
      Catalog.Records (some "query failed") emptyDB ⟨"f1", "", ""⟩ =
        Catalog.Records none emptyDB ⟨"f1", "", ""⟩) :=
  records_error_indistinguishable emptyDB ⟨"f1", "", ""⟩ "query failed"

/-- The mesh membership table `_agents` (alias → URL) as an association list
in insertion order; the Go map has unique keys and is read through lookup. -/
abbrev AgentTable := List (String × String)

/-- Outcome of `registerAtAgents`: `fatal` is `log.Fatal` aborting startup;
`ok` carries the final table and the URLs the final loop POSTs this agent's
own `(selfAlias, url)` to. -/
inductive RegOutcome where
  | fatal (msg : String)
  | ok (agents : AgentTable) (announced : List String)
deriving DecidableEq

/-- `_, ok := _agents[k]` — key presence. -/
def tableHas (t : AgentTable) (k : String) : Bool :=
  (t.lookup k).isSome

/-- `_agents[k] = v` for a key not yet present: append the pair. -/
def tableInsert (t : AgentTable) (k v : String) : AgentTable :=
  t ++ [(k, v)]

/-- The merge loop of `registerAtAgents`: walk the bootstrap peer's table and
add only the aliases not already known locally (local entries win). -/
def mergeRemote (t : AgentTable) (remote : AgentTable) : AgentTable :=
  remote.foldl (fun acc kv => if tableHas acc kv.1 then acc else tableInsert acc kv.1 kv.2) t

/-- The final loop of `registerAtAgents`: POST this agent's own pair to every
table entry except those whose URL equals the bootstrap address `aName` and
except the entry under this agent's own selfAlias; returns the targeted URLs. -/
def announceTargets (t : AgentTable) (selfAlias aName : String) : List String :=
  (t.filter (fun kv => !(kv.2 == aName || kv.1 == selfAlias))).map Prod.snd

/-- Go `registerAtAgents` (server package).  The globals `_agents`, `_alias`,
`_myself` become the arguments `t`, `selfAlias`, `myself`; `aName` is the
bootstrap peer address.  `bootstrapOk` models the `register` POST to the
bootstrap peer succeeding (HTTP 200, no transport error) — on failure the Go
code calls `log.Fatal`; `remote` models fetching and unmarshalling the
bootstrap peer's `/agents` table, with `none` for an unmarshal error, which
skips the merge.  The Go guard `aName != "" && len(aName) > 0` is one
condition twice. -/
def registerAtAgents (t : AgentTable) (selfAlias myself aName : String)
    (bootstrapOk : Bool) (remote : Option AgentTable) : RegOutcome :=
  if tableHas t selfAlias then RegOutcome.fatal "name already exists"
  else
    let t1 := tableInsert t selfAlias myself
    if aName ≠ "" then
      if !bootstrapOk then RegOutcome.fatal "unable to register at bootstrap"
      else
        let t2 := match remote with
          | some r => mergeRemote t1 r
          | none => t1
        RegOutcome.ok t2 (announceTargets t2 selfAlias aName)
    else RegOutcome.ok t1 (announceTargets t1 selfAlias aName)

theorem lookup_append_none (t u : AgentTable) (k : String)
    (h : t.lookup k = none) : (t ++ u).lookup k = u.lookup k := by
  induction t with
  | nil => simp
  | cons a t ih =>
    rw [List.cons_append]
    cases a with
    | mk a1 a2 =>
      by_cases hk : k == a1
      · simp [List.lookup, hk] at h
      · simp only [List.lookup, hk] at h ⊢
        exact ih h

theorem lookup_tableInsert_self (t : AgentTable) (k v : String)
    (h : t.lookup k = none) : (tableInsert t k v).lookup k = some v := by
  unfold tableInsert
  rw [lookup_append_none t [(k, v)] k h]
  simp [List.lookup]

theorem lookup_tableInsert_ne (t : AgentTable) (a1 a2 k : String)
    (h : t.lookup k = none) (hne : k ≠ a1) :
    (tableInsert t a1 a2).lookup k = none := by
  unfold tableInsert
  rw [lookup_append_none t [(a1, a2)] k h]
  have hb : (k == a1) = false := beq_eq_false_iff_ne.mpr hne
  simp [List.lookup, hb]

theorem lookup_append_isSome (t u : AgentTable) (k : String)
    (h : (t.lookup k).isSome = true) : (t ++ u).lookup k = t.lookup k := by
  induction t with
  | nil => simp at h
  | cons a t ih =>
    rw [List.cons_append]
    cases a with
    | mk a1 a2 =>
      by_cases hk : k == a1
      · simp [List.lookup, hk]
      · simp only [List.lookup, hk] at h ⊢
        exact ih h

/-- A locally known selfAlias keeps its local URL through the merge. -/
theorem lookup_mergeRemote_of_isSome (r : AgentTable) (t : AgentTable) (k : String)
    (h : (t.lookup k).isSome = true) :
    (mergeRemote t r).lookup k = t.lookup k := by
  induction r generalizing t with
  | nil => rfl
  | cons a r ih =>
    simp only [mergeRemote, List.foldl_cons]
    by_cases hat : tableHas t a.1 = true
    · rw [if_pos hat]
      exact ih t h
    · rw [if_neg (by simp [hat])]
      have h1 : (tableInsert t a.1 a.2).lookup k = t.lookup k :=
        lookup_append_isSome t [(a.1, a.2)] k h
      have h2 : ((tableInsert t a.1 a.2).lookup k).isSome = true := by
        rw [h1]; exact h
      have h3 := ih (tableInsert t a.1 a.2) h2
      simp only [mergeRemote] at h3
      rw [h3, h1]

/-- An selfAlias unknown locally is added with the URL the bootstrap peer reports
for it (the peer's table has unique keys, being a Go map). -/
theorem lookup_mergeRemote_of_new (r : AgentTable) (t : AgentTable) (k v : String)
    (hk : t.lookup k = none) (hmem : (k, v) ∈ r)
    (hnodup : (r.map Prod.fst).Nodup) :
    (mergeRemote t r).lookup k = some v := by
  induction r generalizing t with
  | nil => cases hmem
  | cons a r ih =>
    simp only [List.map_cons, List.nodup_cons] at hnodup
    simp only [mergeRemote, List.foldl_cons]
    rcases List.mem_cons.mp hmem with heq | hmem'
    · subst heq
      rw [if_neg (by simp [tableHas, hk])]
      have hs : ((tableInsert t k v).lookup k).isSome = true := by
        rw [lookup_tableInsert_self t k v hk]
        rfl
      have hpres := lookup_mergeRemote_of_isSome r (tableInsert t k v) k hs
      simp only [mergeRemote] at hpres
      rw [hpres]
      exact lookup_tableInsert_self t k v hk
    · have hka : k ≠ a.1 := by
        intro hkeq
        exact hnodup.1 (hkeq ▸ (List.mem_map.mpr ⟨(k, v), hmem', rfl⟩))
      by_cases hat : tableHas t a.1 = true
      · rw [if_pos hat]
        exact ih t hk hmem' hnodup.2
      · rw [if_neg (by simp [hat])]
        have hk1 : (tableInsert t a.1 a.2).lookup k = none :=
          lookup_tableInsert_ne t a.1 a.2 k hk hka
        exact ih (tableInsert t a.1 a.2) hk1 hmem' hnodup.2

theorem tableHas_false_lookup (t : AgentTable) (k : String)
    (h : tableHas t k = false) : t.lookup k = none := by
  unfold tableHas at h
  cases hl : t.lookup k with
  | none => rfl
  | some v => rw [hl] at h; simp at h

/-- C6: self-registration.  For every local table already containing the
agent's own alias, `registerAtAgents` aborts startup via `log.Fatal` before
doing anything else; when the alias is absent, `(alias, own URL)` is inserted
into the table first, local entries win over the later merge, and so every
non-fatal outcome's table maps the agent's alias to its own URL. -/
theorem self_registration_fatal_on_dup (t : AgentTable)
    (selfAlias myself aName : String) (bOk : Bool) (remote : Option AgentTable) :
    (tableHas t selfAlias = true →
      registerAtAgents t selfAlias myself aName bOk remote =
        RegOutcome.fatal "name already exists") ∧
    (tableHas t selfAlias = false →
      ∀ ag ann, registerAtAgents t selfAlias myself aName bOk remote =
          RegOutcome.ok ag ann →
        ag.lookup selfAlias = some myself) := by
  constructor
  · intro h
    unfold registerAtAgents
    rw [if_pos h]
  · intro h ag ann hok
    have hnone : t.lookup selfAlias = none := tableHas_false_lookup t selfAlias h
    have hlook : (tableInsert t selfAlias myself).lookup selfAlias = some myself :=
      lookup_tableInsert_self t selfAlias myself hnone
    unfold registerAtAgents at hok
    rw [if_neg (by simp [h])] at hok
    by_cases hA : aName = ""
    · rw [if_neg (by simp [hA])] at hok
      cases hok
      exact hlook
    · rw [if_pos hA] at hok
      cases bOk with
      | true =>
        rw [if_neg (by decide)] at hok
        cases remote with
        | none =>
          cases hok
          exact hlook
        | some r =>
          cases hok
          have hs : ((tableInsert t selfAlias myself).lookup selfAlias).isSome = true := by
            rw [hlook]; rfl
          rw [lookup_mergeRemote_of_isSome r (tableInsert t selfAlias myself) selfAlias hs]
          exact hlook
      | false =>
        rw [if_pos (by decide)] at hok
        exact RegOutcome.noConfusion hok

/-- Witness for C6: duplicate alias aborts; fresh alias ends with its own URL
in every successful table. -/
theorem self_registration_fatal_on_dup_witness :
    (registerAtAgents [("A", "urlA")] "A" "urlA2" "" true none =
      RegOutcome.fatal "name already exists") ∧
    (∀ ag ann, registerAtAgents [] "A" "urlA2" "" true none = RegOutcome.ok ag ann →
      ag.lookup "A" = some "urlA2") :=
  ⟨(self_registration_fatal_on_dup [("A", "urlA")] "A" "urlA2" "" true none).1 (by decide),
   (self_registration_fatal_on_dup [] "A" "urlA2" "" true none).2 (by decide)⟩

/-- C7: joining through a bootstrap peer.  With a fresh own alias, a non-empty
bootstrap address `aName`, a successful bootstrap registration and a fetched
remote table (unique keys, being a Go map), the join succeeds; every alias
already known locally — the local table plus the own entry inserted first —
keeps its local URL, every alias known only to the bootstrap peer is added
with the peer-reported URL, and the announcement POSTs go to exactly the URLs
of final-table entries other than those carrying the bootstrap address (the
bootstrap peer) and other than the entry under the agent's own alias. -/
theorem join_merge_local_wins_and_announce (t : AgentTable)
    (selfAlias myself aName : String) (r : AgentTable)
    (hself : tableHas t selfAlias = false)
    (hA : aName ≠ "")
    (hnodup : (r.map Prod.fst).Nodup) :
    ∃ ag ann,
      registerAtAgents t selfAlias myself aName true (some r) = RegOutcome.ok ag ann ∧
      (∀ k, tableHas (tableInsert t selfAlias myself) k = true →
        ag.lookup k = (tableInsert t selfAlias myself).lookup k) ∧
      (∀ k v, (k, v) ∈ r → tableHas (tableInsert t selfAlias myself) k = false →
        ag.lookup k = some v) ∧
      (∀ u, u ∈ ann ↔ ∃ k, (k, u) ∈ ag ∧ u ≠ aName ∧ k ≠ selfAlias) := by
  refine ⟨mergeRemote (tableInsert t selfAlias myself) r,
      announceTargets (mergeRemote (tableInsert t selfAlias myself) r) selfAlias aName,
      ?_, ?_, ?_, ?_⟩
  · unfold registerAtAgents
    rw [if_neg (by simp [hself]), if_pos hA, if_neg (by decide)]
  · intro k hk
    exact lookup_mergeRemote_of_isSome r (tableInsert t selfAlias myself) k hk
  · intro k v hmem hk
    exact lookup_mergeRemote_of_new r (tableInsert t selfAlias myself) k v
      (tableHas_false_lookup _ k hk) hmem hnodup
  · intro u
    unfold announceTargets
    simp only [List.mem_map, List.mem_filter]
    constructor
    · rintro ⟨⟨k, u'⟩, ⟨hmem, hcond⟩, hu⟩
      subst hu
      simp only [Bool.not_eq_true', Bool.or_eq_false_iff, beq_eq_false_iff_ne] at hcond
      exact ⟨k, hmem, hcond.1, hcond.2⟩
    · rintro ⟨k, hmem, hu, hk⟩
      refine ⟨(k, u), ⟨hmem, ?_⟩, rfl⟩
      simp only [Bool.not_eq_true', Bool.or_eq_false_iff, beq_eq_false_iff_ne]
      exact ⟨hu, hk⟩

/-- Witness for C7: agent B joins a singleton mesh through bootstrap A. -/
theorem join_merge_local_wins_and_announce_witness :
    ∃ ag ann,
      registerAtAgents [] "B" "urlB" "urlA" true (some [("A", "urlA")]) =
        RegOutcome.ok ag ann ∧
      (∀ k, tableHas (tableInsert [] "B" "urlB") k = true →
        ag.lookup k = (tableInsert [] "B" "urlB").lookup k) ∧
      (∀ k v, (k, v) ∈ [("A", "urlA")] → tableHas (tableInsert [] "B" "urlB") k = false →
        ag.lookup k = some v) ∧
      (∀ u, u ∈ ann ↔ ∃ k, (k, u) ∈ ag ∧ u ≠ "urlA" ∧ k ≠ "B") :=
  join_merge_local_wins_and_announce [] "B" "urlB" "urlA" [("A", "urlA")]
    (by decide) (by decide) (by decide)

/-- C9: the query placeholder is ":name" for the Oracle dialects "ora" and
"oci8", "$name" for "PostgreSQL", and the positional "?" for every other
configured dialect. -/
theorem placeholder_by_dialect (p : String) :
    placeholder "ora" p = ":" ++ p ∧
    placeholder "oci8" p = ":" ++ p ∧
    placeholder "PostgreSQL" p = "$" ++ p ∧
    ∀ d, d ≠ "ora" → d ≠ "oci8" → d ≠ "PostgreSQL" → placeholder d p = "?" := by
  refine ⟨rfl, rfl, rfl, ?_⟩
  intro d h1 h2 h3
  have e1 : (d == "ora") = false := beq_eq_false_iff_ne.mpr h1
  have e2 : (d == "oci8") = false := beq_eq_false_iff_ne.mpr h2
  have e3 : (d == "PostgreSQL") = false := beq_eq_false_iff_ne.mpr h3
  simp [placeholder, e1, e2, e3]

/-- Witness for C9 at the name "lfn" and the dialect "sqlite3". -/
theorem placeholder_by_dialect_witness :
    placeholder "ora" "lfn" = ":" ++ "lfn" ∧
    placeholder "oci8" "lfn" = ":" ++ "lfn" ∧
    placeholder "PostgreSQL" "lfn" = "$" ++ "lfn" ∧
    placeholder "sqlite3" "lfn" = "?" :=
  ⟨(placeholder_by_dialect "lfn").1, (placeholder_by_dialect "lfn").2.1,
   (placeholder_by_dialect "lfn").2.2.1,
   (placeholder_by_dialect "lfn").2.2.2 "sqlite3" (by decide) (by decide) (by decide)⟩

/-- Go's uint32 as a natural number reduced mod 2^32. -/
def w32 (n : Nat) : Nat := n % 4294967296

/-- Right rotation of a 32-bit word. -/
def rotr32 (x n : Nat) : Nat := w32 ((x >>> n) ||| (x <<< (32 - n)))

/-- SHA-256 big sigma 0. -/
def bsig0 (x : Nat) : Nat := (rotr32 x 2) ^^^ (rotr32 x 13) ^^^ (rotr32 x 22)

/-- SHA-256 big sigma 1. -/
def bsig1 (x : Nat) : Nat := (rotr32 x 6) ^^^ (rotr32 x 11) ^^^ (rotr32 x 25)

/-- SHA-256 small sigma 0. -/
def ssig0 (x : Nat) : Nat := (rotr32 x 7) ^^^ (rotr32 x 18) ^^^ (x >>> 3)

/-- SHA-256 small sigma 1. -/
def ssig1 (x : Nat) : Nat := (rotr32 x 17) ^^^ (rotr32 x 19) ^^^ (x >>> 10)

/-- SHA-256 choice function; the complement of a 32-bit word is xor with the
all-ones mask. -/
def chF (x y z : Nat) : Nat := (x &&& y) ^^^ ((x ^^^ 4294967295) &&& z)

/-- SHA-256 majority function. -/
def majF (x y z : Nat) : Nat := (x &&& y) ^^^ (x &&& z) ^^^ (y &&& z)

/-- The 64 SHA-256 round constants (FIPS 180-4 section 4.2.2, here written
in decimal). -/
def sha256K : List Nat :=
  [1116352408, 1899447441, 3049323471, 3921009573, 961987163, 1508970993,
   2453635748, 2870763221, 3624381080, 310598401, 607225278, 1426881987,
   1925078388, 2162078206, 2614888103, 3248222580, 3835390401, 4022224774,
   264347078, 604807628, 770255983, 1249150122, 1555081692, 1996064986,
   2554220882, 2821834349, 2952996808, 3210313671, 3336571891, 3584528711,
   113926993, 338241895, 666307205, 773529912, 1294757372, 1396182291,
   1695183700, 1986661051, 2177026350, 2456956037, 2730485921, 2820302411,
   3259730800, 3345764771, 3516065817, 3600352804, 4094571909, 275423344,
   430227734, 506948616, 659060556, 883997877, 958139571, 1322822218,
   1537002063, 1747873779, 1955562222, 2024104815, 2227730452, 2361852424,
   2428436474, 2756734187, 3204031479, 3329325298]

/-- The SHA-256 initial hash value (FIPS 180-4 section 5.3.3, in decimal). -/
def sha256H0 : List Nat :=
  [1779033703, 3144134277, 1013904242, 2773480762,
   1359893119, 2600822924, 528734635, 1541459225]

/-- The 8-byte big-endian encoding of the message bit length. -/
def lenBytes64 (n : Nat) : List Nat :=
  [(n >>> 56) &&& 255, (n >>> 48) &&& 255, (n >>> 40) &&& 255, (n >>> 32) &&& 255,
   (n >>> 24) &&& 255, (n >>> 16) &&& 255, (n >>> 8) &&& 255, n &&& 255]

/-- SHA-256 padding: a 0x80 byte, zeros to 56 mod 64, then the bit length. -/
def padMessage (msg : List Nat) : List Nat :=
  msg ++ [128] ++ List.replicate ((119 - msg.length % 64) % 64) 0 ++
    lenBytes64 (8 * msg.length)

/-- Parse bytes into big-endian 32-bit words. -/
def toWordsBE : List Nat → List Nat
  | b0 :: b1 :: b2 :: b3 :: rest =>
      (b0 * 16777216 + b1 * 65536 + b2 * 256 + b3) :: toWordsBE rest
  | _ => []

/-- Split into 64-byte blocks, structurally on the block count so the
definition reduces in the kernel; the padded message length is a multiple of
64, so the count covers it exactly. -/
def chunksN : Nat → List Nat → List (List Nat)
  | 0, _ => []
  | n + 1, l => l.take 64 :: chunksN n (l.drop 64)

/-- The message schedule: extend the 16 block words by 48 more. -/
def extendW : Nat → List Nat → List Nat
  | 0, ws => ws
  | n + 1, ws =>
      extendW n (ws ++ [w32 (ssig1 (ws.getD (ws.length - 2) 0) +
        ws.getD (ws.length - 7) 0 +
        ssig0 (ws.getD (ws.length - 15) 0) + ws.getD (ws.length - 16) 0)])

/-- The eight 32-bit working variables of the SHA-256 compression loop. -/
structure Sha256State where
  a : Nat
  b : Nat
  c : Nat
  d : Nat
  e : Nat
  f : Nat
  g : Nat
  h : Nat
deriving DecidableEq

/-- One SHA-256 round, with `kw` the round constant paired with the schedule
word. -/
def compressStep (st : Sha256State) (kw : Nat × Nat) : Sha256State :=
  let t1 := w32 (st.h + bsig1 st.e + chF st.e st.f st.g + kw.1 + kw.2)
  let t2 := w32 (bsig0 st.a + majF st.a st.b st.c)
  ⟨w32 (t1 + t2), st.a, st.b, st.c, w32 (st.d + t1), st.e, st.f, st.g⟩

/-- Compress one 64-byte block into the running hash value. -/
def compressBlock (hs : List Nat) (block : List Nat) : List Nat :=
  let ws := extendW 48 (toWordsBE block)
  let st0 : Sha256State :=
    ⟨hs.getD 0 0, hs.getD 1 0, hs.getD 2 0, hs.getD 3 0,
     hs.getD 4 0, hs.getD 5 0, hs.getD 6 0, hs.getD 7 0⟩
  let stf := (sha256K.zip ws).foldl compressStep st0
  [w32 (hs.getD 0 0 + stf.a), w32 (hs.getD 1 0 + stf.b),
   w32 (hs.getD 2 0 + stf.c), w32 (hs.getD 3 0 + stf.d),
   w32 (hs.getD 4 0 + stf.e), w32 (hs.getD 5 0 + stf.f),
   w32 (hs.getD 6 0 + stf.g), w32 (hs.getD 7 0 + stf.h)]

/-- Serialize 32-bit words to bytes, big-endian. -/
def wordsToBytesBE (hs : List Nat) : List Nat :=
  hs.foldr (fun w acc =>
    ((w >>> 24) &&& 255) :: ((w >>> 16) &&& 255) :: ((w >>> 8) &&& 255) ::
      (w &&& 255) :: acc) []

/-- SHA-256 of a byte sequence, as the 32 digest bytes (FIPS 180-4; this is
what Go's `crypto/sha256` hasher computes over the written bytes). -/
def sha256 (msg : List Nat) : List Nat :=
  wordsToBytesBE
    ((chunksN ((padMessage msg).length / 64) (padMessage msg)).foldl
      compressBlock sha256H0)

/-- The digit table of Go's `encoding/hex` — its `hextable` constant, a
lowercase alphabet. -/
def hexDigitChars : List Char :=
  "0123456789abcdef".toList

/-- Go `hex.EncodeToString` on one byte: high digit then low digit. -/
def hexOfByte (b : Nat) : List Char :=
  [hexDigitChars.getD (b / 16) '0', hexDigitChars.getD (b % 16) '0']

/-- Go `hex.EncodeToString` over a byte sequence. -/
def hexEncodeToString (bs : List Nat) : String :=
  String.mk ((bs.map hexOfByte).flatten)

/-- Go `utils.Hash` (utils package): write the data into a `crypto/sha256`
hasher — `hasher.Write` on a hash never fails and reports `len(data)` bytes
written — then hex-encode `hasher.Sum(nil)`, returning the digest string and
the written byte count as int64. -/
def Hash (data : List Nat) : String × Int :=
  (hexEncodeToString (sha256 data), Int.ofNat data.length)

/-- Sanity vector: SHA-256 of the empty message (NIST). -/
theorem sha256_empty_vector :
    hexEncodeToString (sha256 []) =
      "e3b0c44298fc1c149afbf4c8996fb92427ae41e4649b934ca495991b7852b855" := by
  decide

/-- Sanity vector: SHA-256 of "abc" (NIST). -/
theorem sha256_abc_vector :
    hexEncodeToString (sha256 [97, 98, 99]) =
      "ba7816bf8f01cfea414140de5dae2223b00361a396177a9cb410ff61f20015ad" := by
  decide

/-- The lowercase hexadecimal encoding of a byte sequence, written
independently of the hex-package model: two digits per byte through
`Nat.digitChar`, whose digits above nine are the lowercase letters 'a'-'f'. -/
def lowerHexOfBytes (bs : List Nat) : String :=
  String.mk (bs.foldr (fun b acc =>
    Nat.digitChar (b / 16 % 16) :: Nat.digitChar (b % 16) :: acc) [])

theorem hexDigitChars_getD_eq : ∀ x, x < 16 → hexDigitChars.getD x '0' = Nat.digitChar x := by
  decide

theorem hexOfByte_lt256 (b : Nat) (hb : b < 256) :
    hexOfByte b = [Nat.digitChar (b / 16 % 16), Nat.digitChar (b % 16)] := by
  have h1 : b / 16 < 16 := by omega
  have h2 : b % 16 < 16 := Nat.mod_lt _ (by omega)
  unfold hexOfByte
  rw [hexDigitChars_getD_eq _ h1, hexDigitChars_getD_eq _ h2, Nat.mod_eq_of_lt h1]

theorem hexChars_eq (bs : List Nat) (h : ∀ b ∈ bs, b < 256) :
    (bs.map hexOfByte).flatten =
      bs.foldr (fun b acc =>
        Nat.digitChar (b / 16 % 16) :: Nat.digitChar (b % 16) :: acc) [] := by
  induction bs with
  | nil => rfl
  | cons b bs ih =>
    have hb := h b (List.mem_cons_self b bs)
    have hrest : ∀ x ∈ bs, x < 256 := fun x hx => h x (List.mem_cons_of_mem b hx)
    rw [List.map_cons, List.flatten_cons, hexOfByte_lt256 b hb, ih hrest,
      List.foldr_cons]
    rfl

theorem hexEncode_eq_lowerHex (bs : List Nat) (h : ∀ b ∈ bs, b < 256) :
    hexEncodeToString bs = lowerHexOfBytes bs := by
  unfold hexEncodeToString lowerHexOfBytes
  rw [hexChars_eq bs h]

theorem mem_wordsToBytesBE_lt256 (hs : List Nat) :
    ∀ b ∈ wordsToBytesBE hs, b < 256 := by
  induction hs with
  | nil => intro b hb; simp [wordsToBytesBE] at hb
  | cons w hs ih =>
    intro b hb
    have hmask : ∀ x : Nat, x &&& 255 < 256 :=
      fun x => Nat.lt_succ_of_le Nat.and_le_right
    simp only [wordsToBytesBE, List.foldr_cons] at hb
    rcases List.mem_cons.mp hb with rfl | hb
    · exact hmask _
    rcases List.mem_cons.mp hb with rfl | hb
    · exact hmask _
    rcases List.mem_cons.mp hb with rfl | hb
    · exact hmask _
    rcases List.mem_cons.mp hb with rfl | hb
    · exact hmask _
    exact ih b hb

theorem length_wordsToBytesBE (hs : List Nat) :
    (wordsToBytesBE hs).length = 4 * hs.length := by
  induction hs with
  | nil => rfl
  | cons w hs ih =>
    simp only [wordsToBytesBE, List.foldr_cons, List.length_cons] at ih ⊢
    omega

theorem length_foldl_compressBlock (blocks : List (List Nat)) (hs : List Nat)
    (h : hs.length = 8) : (blocks.foldl compressBlock hs).length = 8 := by
  induction blocks generalizing hs with
  | nil => exact h
  | cons b bs ih => exact ih (compressBlock hs b) rfl

theorem sha256_length (msg : List Nat) : (sha256 msg).length = 32 := by
  unfold sha256
  rw [length_wordsToBytesBE, length_foldl_compressBlock _ sha256H0 rfl]

theorem mem_sha256_lt256 (msg : List Nat) : ∀ b ∈ sha256 msg, b < 256 := by
  unfold sha256
  exact mem_wordsToBytesBE_lt256 _

/-- C10: `utils.Hash` returns the lowercase hexadecimal encoding of the
SHA-256 digest of the data — a 32-byte digest — together with a byte count
equal to the length of the data. -/
theorem hash_is_lowercase_sha256_hex (data : List Nat) :
    Hash data = (lowerHexOfBytes (sha256 data), Int.ofNat data.length) ∧
    (sha256 data).length = 32 := by
  constructor
  · unfold Hash
    rw [hexEncode_eq_lowerHex (sha256 data) (mem_sha256_lt256 data)]
  · exact sha256_length data
